import Mathlib

/-!
Verification development for the Knowledge Context Assembly Pipeline
(document chunking, graph-based entity/relationship retrieval,
vector-similarity chunk retrieval, and context assembly).

The Python services are shallowly embedded:

* pure helpers become Lean functions;
* the external collaborators (Neo4j session, ChromaDB collection, the
  generation model) are oracles passed in as `Except`-valued functions;
  a Python `try/except` around a collaborator call becomes a `match` on
  the `Except` value;
* Python `float` scores become `ℚ` (only order and subtraction by 1 are
  used, so exact rationals model every comparison the code performs);
* Python `str.split()` output (a list of non-empty, whitespace-free
  words) is the chunker's input; the normalized document text is the
  space-joined word list, exactly what `_clean_text` feeds
  `_create_chunks`;
* timestamps and generated UUIDs are opaque strings whose value no
  verified property depends on; they are modelled as `""` where the code
  asks the clock or the UUID generator.
-/

namespace CursorBuild

/-- Python's `' '.join(ws)`: words separated by single spaces. -/
def sjoin : List String → String
  | [] => ""
  | [w] => w
  | w :: ws => w ++ " " ++ sjoin ws

/-- The running character count the chunker keeps: `len(word) + 1` summed,
the `+ 1` standing for the space after each word. -/
def sumLen (ws : List String) : Nat := (ws.map (fun w => w.length + 1)).sum

/-- Python's `l[-k:]` on a list: the trailing `k` elements, the whole list
when `k = 0` (because `l[-0:]` is `l[0:]`) or when `k ≥ len(l)`. -/
def pySliceLast (k : Nat) (l : List String) : List String :=
  if k = 0 then l else l.drop (l.length - k)

/-- `overlap_words = current_chunk[-overlap//10:] if overlap > 0 else []`
(document_processor.py line 177). -/
def seedOf (ov : Nat) (b : List String) : List String :=
  if 0 < ov then pySliceLast (ov / 10) b else []

/-- The word-accumulation loop of `DocumentProcessor._create_chunks`
(document_processor.py lines 160-180).  State: the words still to read,
the running buffer `current_chunk`, and `current_length`.  Returns the
buffers emitted inside the loop (in emission order) and the buffer left
when the loop ends (the final chunk's words, possibly empty). -/
def chunkLoop (cs ov : Nat) : List String → List String → Nat → List (List String) × List String
  | [], buf, _ => ([], buf)
  | w :: ws, buf, curLen =>
    let buf2 := buf ++ [w]
    let len2 := curLen + w.length + 1
    if cs ≤ len2 then
      let seed := seedOf ov buf2
      let p := chunkLoop cs ov ws seed (sumLen seed)
      (buf2 :: p.1, p.2)
    else
      chunkLoop cs ov ws buf2 len2

/-- All emitted buffers in chunk order: the in-loop ones, then the final
remainder when it is non-empty (document_processor.py lines 182-192). -/
def spansAll (p : List (List String) × List String) : List (List String) :=
  p.1 ++ (if p.2.isEmpty then [] else [p.2])

/-- The word spans of the chunks `_create_chunks` produces for the given
word list (the result of `text.split()` on the normalized text). -/
def createChunkSpans (words : List String) (cs ov : Nat) : List (List String) :=
  spansAll (chunkLoop cs ov words [] 0)

/-- A metadata value as ChromaDB stores it: Python puts strings and ints
into the chunk metadata dict. -/
inductive MVal where
  | s (v : String)
  | n (v : Int)
deriving DecidableEq

/-- `DocumentChunk` (models/document.py lines 58-66).  `id`, `created_at`
and `updated_at` come from `BaseEntity` (uuid4 / utcnow defaults, opaque
here). -/
structure DocumentChunk where
  id : String
  created_at : String
  updated_at : String
  document_id : String
  chunk_index : Nat
  content : String
  start_position : Nat
  end_position : Nat
  embedding : Option (List ℚ)
  metadata : List (String × MVal)
deriving DecidableEq

namespace DocumentProcessor

/-- `DocumentProcessor._create_chunks` (document_processor.py lines
149-194), on the word list of the normalized text (so `len(text)` is
`(sjoin words).length`).  The position expressions transcribe the source:
`start_position = len(' '.join(words[:len(words) - len(current_chunk)]))`
and `end_position = len(' '.join(words[:len(words) - len(current_chunk)
+ len(current_chunk)]))` for in-loop chunks (note the total word count
`len(words)`, not the consumed count), and `len(text) - len(chunk_text)`
/ `len(text)` for the final chunk. -/
def _create_chunks (words : List String) (document_id : String) (chunk_size overlap : Nat) :
    List DocumentChunk :=
  let p := chunkLoop chunk_size overlap words [] 0
  let inLoop := p.1.enum.map (fun q =>
    { id := "", created_at := "", updated_at := "",
      document_id := document_id, chunk_index := q.1, content := sjoin q.2,
      start_position := (sjoin (words.take (words.length - q.2.length))).length,
      end_position := (sjoin (words.take (words.length - q.2.length + q.2.length))).length,
      embedding := none, metadata := [] })
  inLoop ++ (if p.2.isEmpty then [] else
    [{ id := "", created_at := "", updated_at := "",
       document_id := document_id, chunk_index := p.1.length, content := sjoin p.2,
       start_position := (sjoin words).length - (sjoin p.2).length,
       end_position := (sjoin words).length,
       embedding := none, metadata := [] }])

end DocumentProcessor

/-- Dropping, from every chunk after the first, the words the chunker
seeded it with from its predecessor (`seedOf`), and concatenating. -/
def glue (ov : Nat) : List String → List (List String) → List String
  | _, [] => []
  | prev, b :: bs => b.drop (seedOf ov prev).length ++ glue ov b bs

/-- The de-overlapped concatenation of a chunk-span sequence. -/
def reconstructChunks (ov : Nat) : List (List String) → List String
  | [] => []
  | b :: bs => b ++ glue ov b bs

/-- `EntityType` (models/knowledge.py lines 6-17). -/
inductive EntityType where
  | company | person | product | service | location
  | industry | technology | concept | event | organization
deriving DecidableEq

/-- `RelationshipType` (models/knowledge.py lines 19-33). -/
inductive RelationshipType where
  | competes_with | partners_with | acquires | invests_in | employs
  | founded | located_in | operates_in | provides | uses
  | similar_to | parent_of | subsidiary_of
deriving DecidableEq

/-- `Entity` (models/knowledge.py lines 35-51) plus the `BaseEntity`
fields.  `id` is the stringified UUID (the graph stores `str(entity.id)`),
timestamps are opaque strings, attribute values are opaque strings,
`confidence_score` is an exact rational. -/
structure Entity where
  id : String
  created_at : String
  updated_at : String
  name : String
  entity_type : EntityType
  description : Option String
  attributes : List (String × String)
  confidence_score : ℚ
  source_documents : List String
  extraction_method : String
  aliases : List String
  tags : List String
deriving DecidableEq

/-- `Relationship` (models/knowledge.py lines 53-65) plus `BaseEntity`
fields. -/
structure Relationship where
  id : String
  created_at : String
  updated_at : String
  source_entity_id : String
  target_entity_id : String
  relationship_type : RelationshipType
  properties : List (String × String)
  confidence_score : ℚ
  source_documents : List String
  extraction_method : String
deriving DecidableEq

/-- A `RELATES_TO` edge as `create_relationship` stores it in Neo4j: the
two endpoint ids and the `SET` properties (knowledge_graph.py lines
72-79). -/
structure RelEdge where
  source_id : String
  target_id : String
  relationship_type : RelationshipType
  properties : List (String × String)
  confidence_score : ℚ
  source_documents : List String
  extraction_method : String
  created_at : String
  updated_at : String
deriving DecidableEq

/-- The observable graph-store state: the stored entity nodes and the
stored `RELATES_TO` edges.  Node ids are unique because every entity write
goes through `MERGE (e:Entity {id: $id})`. -/
structure GraphState where
  entities : List Entity
  relationships : List RelEdge
deriving DecidableEq

/-- The effect of the `SET` clause of `create_entity` on a matched node:
every property except `id` is overwritten from the argument
(knowledge_graph.py lines 30-42). -/
def setEntityFields (e : Entity) (n : Entity) : Entity :=
  { n with
    name := e.name
    entity_type := e.entity_type
    description := e.description
    attributes := e.attributes
    confidence_score := e.confidence_score
    source_documents := e.source_documents
    extraction_method := e.extraction_method
    aliases := e.aliases
    tags := e.tags
    created_at := e.created_at
    updated_at := e.updated_at }

namespace KnowledgeGraph

/-- `KnowledgeGraph.create_entity` (knowledge_graph.py lines 25-63):
`MERGE (e:Entity {id}) SET ...` — update the fields of the node with this
id when it exists, create the node otherwise; returns `True`.  (The
`except` branch returning `False` fires only when the driver itself
fails; the state model is the driver.) -/
def create_entity (entity : Entity) (st : GraphState) : GraphState × Bool :=
  if st.entities.any (fun n => n.id == entity.id) then
    let updated := st.entities.map
      (fun n => if n.id = entity.id then setEntityFields entity n else n)
    ({ st with entities := updated }, true)
  else
    ({ st with entities := st.entities ++ [entity] }, true)

/-- The effect of the `SET` clause of `create_relationship` on a matched
edge (knowledge_graph.py lines 73-79). -/
def setRelEdgeFields (r : Relationship) (ed : RelEdge) : RelEdge :=
  { ed with
    relationship_type := r.relationship_type
    properties := r.properties
    confidence_score := r.confidence_score
    source_documents := r.source_documents
    extraction_method := r.extraction_method
    created_at := r.created_at
    updated_at := r.updated_at }

/-- `KnowledgeGraph.create_relationship` (knowledge_graph.py lines
65-98): `MATCH (source) MATCH (target) MERGE (source)-[r:RELATES_TO]->
(target) SET ...`.  When both endpoints exist the edge keyed on the
(source, target) pair is updated or created; when either `MATCH` finds
nothing the query produces zero rows, nothing is written, no error is
raised, and the function still returns `True`. -/
def create_relationship (r : Relationship) (st : GraphState) : GraphState × Bool :=
  if st.entities.any (fun n => n.id == r.source_entity_id)
      ∧ st.entities.any (fun n => n.id == r.target_entity_id) then
    if st.relationships.any (fun ed =>
        ed.source_id == r.source_entity_id && ed.target_id == r.target_entity_id) then
      let updated := st.relationships.map (fun ed =>
        if ed.source_id = r.source_entity_id ∧ ed.target_id = r.target_entity_id
        then setRelEdgeFields r ed else ed)
      ({ st with relationships := updated }, true)
    else
      let fresh : RelEdge :=
        { source_id := r.source_entity_id
          target_id := r.target_entity_id
          relationship_type := r.relationship_type
          properties := r.properties
          confidence_score := r.confidence_score
          source_documents := r.source_documents
          extraction_method := r.extraction_method
          created_at := r.created_at
          updated_at := r.updated_at }
      ({ st with relationships := st.relationships ++ [setRelEdgeFields r fresh] }, true)
  else (st, true)

end KnowledgeGraph

/-- The per-type and total counts `get_graph_statistics` reports
(knowledge_graph.py lines 250-288), derived from the store state. -/
structure GraphStatistics where
  total_entities : Nat
  total_relationships : Nat
  entity_type_counts : EntityType → Nat
  relationship_type_counts : RelationshipType → Nat

/-- `KnowledgeGraph.get_graph_statistics` as a function of the store
state. -/
def KnowledgeGraph.get_graph_statistics (st : GraphState) : GraphStatistics :=
  { total_entities := st.entities.length,
    total_relationships := st.relationships.length,
    entity_type_counts := fun t =>
      (st.entities.filter (fun e => e.entity_type == t)).length,
    relationship_type_counts := fun t =>
      (st.relationships.filter (fun ed => ed.relationship_type == t)).length }

/-- One row of `get_entity_relationships` (knowledge_graph.py lines
180-198): the source/target projections and the relationship data. -/
structure RelRow where
  source_id : String
  source_name : String
  source_type : EntityType
  target_id : String
  target_name : String
  target_type : EntityType
  rel_type : RelationshipType
  rel_properties : List (String × String)
  rel_confidence : ℚ
deriving DecidableEq

/-- What `collection.query` hands back for the single query text: the
parallel `documents` / `metadatas` / `distances` lists (vector_store.py
lines 93-98 read `results[...][0]`). -/
structure QueryResult where
  documents : List String
  metadatas : List (List (String × MVal))
  distances : List ℚ
deriving DecidableEq

/-- `analyze_query_intent`'s parsed result (ai_service.py lines 136-143)
and the `_default_intent_analysis` fallback shape. -/
structure IntentAnalysis where
  query_type : String
  required_context : List String
  complexity : String
  response_approach : String
  confidence : ℚ
deriving DecidableEq

/-- The external collaborators, as fallible oracles: the Neo4j entity
search and relationship query (after row mapping), the ChromaDB
collection query, the Gemini generation call, and `json.loads` applied to
a generation response (as an intent parse).  A raised exception is
`Except.error`. -/
structure Stores where
  searchEntities : String → Nat → Except String (List Entity)
  entityRelationships : String → Except String (List RelRow)
  collectionQuery : String → Nat → Option (List String) → Except String QueryResult
  genContent : String → Except String String
  parseIntent : String → Option IntentAnalysis

namespace KnowledgeGraph

/-- `KnowledgeGraph.search_entities` (knowledge_graph.py lines 100-153):
the session query through the oracle, the `except` clause returning
`[]`. -/
def search_entities (st : Stores) (query : String) (limit : Nat) : List Entity :=
  match st.searchEntities query limit with
  | .ok es => es
  | .error _ => []

/-- `KnowledgeGraph.get_entity_relationships` (knowledge_graph.py lines
155-204): the rows through the oracle, the `except` clause returning
`[]`. -/
def get_entity_relationships (st : Stores) (entity_id : String) : List RelRow :=
  match st.entityRelationships entity_id with
  | .ok rows => rows
  | .error _ => []

end KnowledgeGraph

namespace AIService

/-- `AIService._default_intent_analysis` (ai_service.py lines 230-238). -/
def _default_intent_analysis : IntentAnalysis :=
  { query_type := "factual", required_context := ["entities", "documents"],
    complexity := "simple", response_approach := "direct_answer", confidence := 1/2 }

/-- `AIService._build_prompt` (ai_service.py lines 163-181) at the call
sites of this pipeline, where `context` and `system_prompt` are `None`. -/
def _build_prompt (prompt : String) : String :=
  "User Request: " ++ prompt ++ "\n\n"
    ++ "Please provide a comprehensive response based on the context and request."

/-- `AIService.generate_text` (ai_service.py lines 21-40).  Every failure
of the model call is caught inside: an empty response becomes a canned
sentence, an exception becomes the string `"Error generating response: "`
followed by the exception text.  The function never raises. -/
def generate_text (st : Stores) (prompt : String) : String :=
  match st.genContent (_build_prompt prompt) with
  | .ok t =>
    if t.isEmpty then "I couldn" ++ "'" ++ "t generate a response for that request." else t
  | .error e => "Error generating response: " ++ e

/-- The intent-analysis prompt of ai_service.py lines 127-144
(abbreviated: its text reaches the generation oracle only, and every
theorem quantifies over that oracle). -/
def intentPrompt (query : String) : String :=
  "Analyze the following query and determine intent. Query: " ++ query

/-- `AIService.analyze_query_intent` (ai_service.py lines 124-161):
generation failure, empty response and JSON-parse failure all fall back
to `_default_intent_analysis`; never raises. -/
def analyze_query_intent (st : Stores) (query : String) : IntentAnalysis :=
  match st.genContent (intentPrompt query) with
  | .error _ => _default_intent_analysis
  | .ok t =>
    if t.isEmpty then _default_intent_analysis
    else match st.parseIntent t with
      | some r => r
      | none => _default_intent_analysis

end AIService

/-- One entry of the `similar_chunks` list `search_similar` builds
(vector_store.py lines 103-109). -/
structure SimilarChunk where
  content : String
  metadata : List (String × MVal)
  similarity_score : ℚ
  document_id : Option MVal
  chunk_index : Option MVal
deriving DecidableEq

/-- The Python `sort(key=lambda x: x["similarity_score"], reverse=True)`
comparison: `a` may come before `b` iff `b`'s score is ≤ `a`'s. -/
def descBySimilarity (a b : SimilarChunk) : Bool :=
  decide (b.similarity_score ≤ a.similarity_score)

namespace VectorStore

/-- The result-processing tail of `search_similar` (vector_store.py lines
91-116), as a function of the collection query's outcome: a store
failure returns `[]`; otherwise each row scores `1 - distance`, rows
below the threshold are skipped, and the kept rows are sorted by
descending similarity (Python `list.sort` is stable, as is
`mergeSort`). -/
def processQueryOutcome (threshold : ℚ) (x : Except String QueryResult) :
    List SimilarChunk :=
  match x with
  | .error _ => []
  | .ok results =>
    let rows :=
      if results.documents.isEmpty then [] else
        (results.documents.zip (results.metadatas.zip results.distances)).filterMap
          (fun p =>
            let similarity := 1 - p.2.2
            if threshold ≤ similarity then
              some { content := p.1, metadata := p.2.1, similarity_score := similarity,
                     document_id := (p.2.1).lookup ("document_id"),
                     chunk_index := (p.2.1).lookup ("chunk_index") }
            else none)
    rows.mergeSort descBySimilarity

/-- `VectorStore.search_similar` (vector_store.py lines 74-120).  The
`where` filter is dropped when `document_ids` is `None` or empty (Python
truthiness); the collection is queried with `n_results = limit` and the
outcome processed by `processQueryOutcome`. -/
def search_similar (st : Stores) (query : String) (limit : Nat)
    (document_ids : Option (List String)) (threshold : ℚ) : List SimilarChunk :=
  let whereFilter : Option (List String) :=
    match document_ids with
    | some ids => if ids.isEmpty then none else some ids
    | none => none
  processQueryOutcome threshold (st.collectionQuery query limit whereFilter)

end VectorStore

/-- Modelled from the spec: the external vector store (ChromaDB
collection) is specified only at its interface — chunk content and
metadata keyed by id, `add` upserting on repeated identical keys
(spec §4.2, §6).  The collection is the keyed store. -/
abbrev Collection := List (String × String × List (String × MVal))

/-- Content and metadata currently stored under a key. -/
def collLookup (c : Collection) (cid : String) : Option (String × List (String × MVal)) :=
  (c.find? (fun e => e.1 == cid)).map (fun e => e.2)

/-- Modelled from the spec: storing one entry — replace in place when the
key exists, append otherwise. -/
def collUpsertOne (c : Collection) (cid doc : String) (m : List (String × MVal)) : Collection :=
  if c.any (fun e => e.1 == cid) then
    c.map (fun e => if e.1 = cid then (cid, doc, m) else e)
  else c ++ [(cid, doc, m)]

/-- Modelled from the spec: `collection.add(ids, documents, metadatas)`
stores the parallel entries in order. -/
def collAdd (c : Collection) (entries : List (String × String × List (String × MVal))) :
    Collection :=
  entries.foldl (fun acc e => collUpsertOne acc e.1 e.2.1 e.2.2) c

/-- Python `{**a, **b}`: keys of `a` in order with `b`'s value when `b`
has the key, then the keys only `b` has. -/
def dictMerge (a b : List (String × MVal)) : List (String × MVal) :=
  (a.map (fun p => match b.lookup p.1 with | some v => (p.1, v) | none => p))
    ++ b.filter (fun q => !(a.any (fun p => p.1 == q.1)))

/-- The id `add_chunks` stores a chunk under (vector_store.py line 46):
`f"{chunk.document_id}_{chunk.chunk_index}"`. -/
def chunkKey (chunk : DocumentChunk) : String :=
  chunk.document_id ++ "_" ++ toString chunk.chunk_index

/-- The metadata dict `add_chunks` builds for a chunk (vector_store.py
lines 50-57): the five standard entries merged with `**chunk.metadata`. -/
def chunkMetadata (chunk : DocumentChunk) : List (String × MVal) :=
  dictMerge
    [("document_id", MVal.s chunk.document_id),
     ("chunk_index", MVal.n (chunk.chunk_index : Int)),
     ("start_position", MVal.n (chunk.start_position : Int)),
     ("end_position", MVal.n (chunk.end_position : Int)),
     ("created_at", MVal.s chunk.created_at)]
    chunk.metadata

/-- `VectorStore.add_chunks` (vector_store.py lines 34-72): empty input
returns `True` at once; otherwise ids, texts and metadata dicts are built
in parallel and handed to `collection.add`, and the function returns
`True`.  (`False` is returned only when the external store raises; the
modelled collection is the spec interface, which does not fail.) -/
def VectorStore.add_chunks (c : Collection) (chunks : List DocumentChunk) :
    Collection × Bool :=
  if chunks.isEmpty then (c, true)
  else
    let ids := chunks.map chunkKey
    let texts := chunks.map (fun ch => ch.content)
    let metadatas := chunks.map chunkMetadata
    (collAdd c (ids.zip (texts.zip metadatas)), true)

/-- The stop-word set of `_extract_key_terms` (context_engine.py line
163). -/
def common_words : List String :=
  ["the", "a", "an", "and", "or", "but", "in", "on", "at", "to", "for", "of",
   "with", "by", "is", "are", "was", "were", "be", "been", "have", "has",
   "had", "do", "does", "did", "will", "would", "could", "should", "may",
   "might", "can", "what", "when", "where", "why", "how", "who", "which",
   "that", "this", "these", "those"]

/-- Python `str.lower()`: lowercase every character. -/
def pyLower (s : String) : String := String.mk (s.data.map Char.toLower)

/-- Worker for `pySplit`: walk the characters, accumulating the current
word reversed; whitespace closes the word (runs produce nothing). -/
def splitWSAux : List Char → List Char → List String
  | [], cur => if cur.isEmpty then [] else [String.mk cur.reverse]
  | c :: cs, cur =>
    if c.isWhitespace then
      (if cur.isEmpty then [] else [String.mk cur.reverse]) ++ splitWSAux cs []
    else splitWSAux cs (c :: cur)

/-- Python `str.split()` without arguments: split on whitespace runs,
discarding empty parts. -/
def pySplit (s : String) : List String := splitWSAux s.data []

/-- `KnowledgeContext` (models/knowledge.py lines 88-100).  `documents`
is built by Python as `list(set(...))` in unspecified order; the model
keeps the set. -/
structure KnowledgeContext where
  entities : List Entity
  relationships : List Relationship
  documents : Finset MVal
  semantic_chunks : List SimilarChunk
  context_summary : Option String

/-- `KnowledgeContext()` with every pydantic default. -/
def emptyKnowledgeContext : KnowledgeContext :=
  { entities := [], relationships := [], documents := ∅,
    semantic_chunks := [], context_summary := none }

namespace ContextEngine

/-- `ContextEngine._extract_key_terms` (context_engine.py lines 159-168):
lowercase tokens longer than 2 characters outside the stop-word set, top
5. -/
def _extract_key_terms (query : String) : List String :=
  ((pySplit (pyLower query)).filter
    (fun w => !(common_words.contains w) && decide (2 < w.length))).take 5

/-- One step of the Python dict comprehension `{e.id: e for e in l}`: a
later entity with an already-present id overwrites the stored value at
its original position; a new id is appended. -/
def dedupUpd : List Entity → Entity → List Entity
  | [], e => [e]
  | x :: xs, e => if x.id = e.id then e :: xs else x :: dedupUpd xs e

/-- `list({entity.id: entity for entity in l}.values())` (context_engine.py
line 76): first-occurrence order, last-occurrence value. -/
def pyDictDedup (l : List Entity) : List Entity := l.foldl dedupUpd []

/-- `ContextEngine._get_relevant_entities` (context_engine.py lines
62-82): direct search limited to `max_entities`; when it returns fewer
than `max_entities // 2` results, one extra search per key term (top 3),
each limited to `max_entities // 2`, extending the list and deduplicating
by id after each; finally truncate to `max_entities`.  The surrounding
`except` returning `[]` is dead here because the wrapped store calls
already trap their failures. -/
def _get_relevant_entities (st : Stores) (query : String) (intent : IntentAnalysis)
    (max_entities : Nat) : List Entity :=
  let entities := KnowledgeGraph.search_entities st query max_entities
  let entities :=
    if entities.length < max_entities / 2 then
      ((_extract_key_terms query).take 3).foldl
        (fun acc term =>
          pyDictDedup (acc ++ KnowledgeGraph.search_entities st term (max_entities / 2)))
        entities
    else entities
  entities.take max_entities

/-- The `Relationship(...)` object `_get_relevant_relationships` builds
from one row (context_engine.py lines 99-103): only source id, target id
and type are passed; every other field keeps its pydantic default. -/
def relationshipOfRow (row : RelRow) : Relationship :=
  { id := "", created_at := "", updated_at := "",
    source_entity_id := row.source_id, target_entity_id := row.target_id,
    relationship_type := row.rel_type,
    properties := [], confidence_score := 1, source_documents := [],
    extraction_method := "llm" }

/-- `ContextEngine._get_relevant_relationships` (context_engine.py lines
84-110): rows of the first 5 entities, converted, truncated to 20. -/
def _get_relevant_relationships (st : Stores) (entities : List Entity)
    (intent : IntentAnalysis) : List Relationship :=
  ((entities.take 5).foldl
    (fun acc entity =>
      acc ++ (KnowledgeGraph.get_entity_relationships st entity.id).map relationshipOfRow)
    []).take 20

/-- `ContextEngine._get_relevant_chunks` (context_engine.py lines
112-131): vector search with `document_ids=None` and threshold 0.6. -/
def _get_relevant_chunks (st : Stores) (query : String) (intent : IntentAnalysis)
    (max_chunks : Nat) : List SimilarChunk :=
  VectorStore.search_similar st query max_chunks none (3 / 5)

/-- `ContextEngine._extract_document_ids` (context_engine.py lines
170-188): the set of every entity source document, every relationship
source document, and every chunk metadata `document_id` that is
present. -/
def _extract_document_ids (entities : List Entity) (relationships : List Relationship)
    (semantic_chunks : List SimilarChunk) : Finset MVal :=
  (((entities.flatMap (fun e => e.source_documents))
      ++ (relationships.flatMap (fun r => r.source_documents))).map MVal.s).toFinset
    ∪ (semantic_chunks.filterMap (fun c => c.metadata.lookup ("document_id"))).toFinset

/-- The summary prompt of `_generate_context_summary` (context_engine.py
lines 139-150), carrying the query, task type and the three counts. -/
def summaryPrompt (query : String) (nEntities nRels nChunks : Nat)
    (task_type : String) : String :=
  "Create a brief summary of the context assembled for this query: Query: "
    ++ query ++ " Task Type: " ++ task_type
    ++ " Relevant Entities: " ++ toString nEntities ++ " entities found"
    ++ " Relevant Relationships: " ++ toString nRels ++ " relationships found"
    ++ " Relevant Document Chunks: " ++ toString nChunks ++ " chunks found"
    ++ " Provide a 2-3 sentence summary of what context is available and how it relates to the query."

/-- `ContextEngine._generate_context_summary` (context_engine.py lines
133-157).  Its `except` fallback string built from the counts is dead
code: `generate_text` traps every failure internally and returns an error
string instead of raising, so this function returns whatever
`generate_text` returns. -/
def _generate_context_summary (st : Stores) (query : String) (entities : List Entity)
    (relationships : List Relationship) (semantic_chunks : List SimilarChunk)
    (task_type : String) : String :=
  AIService.generate_text st
    (summaryPrompt query entities.length relationships.length semantic_chunks.length task_type)

/-- `ContextEngine.build_context` (context_engine.py lines 22-60).  Every
step traps its own failures, so the outer `except` returning
`KnowledgeContext()` is unreachable; the body is total. -/
def build_context (st : Stores) (query task_type : String)
    (max_entities max_chunks : Nat) : KnowledgeContext :=
  let intent := AIService.analyze_query_intent st query
  let entities := _get_relevant_entities st query intent max_entities
  let relationships := _get_relevant_relationships st entities intent
  let semantic_chunks := _get_relevant_chunks st query intent max_chunks
  let documents := _extract_document_ids entities relationships semantic_chunks
  let summary := _generate_context_summary st query entities relationships
    semantic_chunks task_type
  { entities := entities, relationships := relationships, documents := documents,
    semantic_chunks := semantic_chunks, context_summary := some summary }

end ContextEngine

/-- The spec-worded merge of §4.4: deduplicate keeping the first
occurrence of each id, later duplicates discarded. -/
def dedupFirstById (l : List Entity) : List Entity :=
  l.foldl (fun acc e => if acc.any (fun x => x.id == e.id) then acc else acc ++ [e]) []

/-- The spec-worded `retrieve(query, maxEntities)` of §4.4: direct search,
then — when it under-returns — one search per key term (top 3) at limit
`maxEntities / 2`, merged with first-occurrence-wins deduplication and
truncated. -/
def retrieveSpec (st : Stores) (query : String) (max_entities : Nat) : List Entity :=
  let direct := KnowledgeGraph.search_entities st query max_entities
  if direct.length < max_entities / 2 then
    (dedupFirstById (direct
      ++ ((ContextEngine._extract_key_terms query).take 3).flatMap
        (fun term => KnowledgeGraph.search_entities st term (max_entities / 2)))).take
      max_entities
  else direct.take max_entities

/-- The empty graph store. -/
def emptyGraph : GraphState := { entities := [], relationships := [] }

/-- A collection query result with two rows (used by witnesses). -/
def sampleQueryResult : QueryResult :=
  { documents := ["alpha text", "beta text"]
    metadatas := [[("document_id", MVal.s "doc-1")], [("document_id", MVal.s "doc-2")]]
    distances := [1 / 4, 1 / 10] }

/-- A store whose collaborators all answer (used by witnesses). -/
def sampleStores : Stores :=
  { searchEntities := fun _ _ => Except.ok []
    entityRelationships := fun _ => Except.ok []
    collectionQuery := fun _ _ _ => Except.ok sampleQueryResult
    genContent := fun _ => Except.ok "fine"
    parseIntent := fun _ => none }

/-- A store whose every external collaborator fails (graph search,
relationship query, vector query, generation). -/
def failingStores : Stores :=
  { searchEntities := fun _ _ => Except.error "connection refused"
    entityRelationships := fun _ => Except.error "connection refused"
    collectionQuery := fun _ _ _ => Except.error "connection refused"
    genContent := fun _ => Except.error "quota exceeded"
    parseIntent := fun _ => none }

/-- Two chunks of one document and a replacement for the first (the
re-add inputs of the vector-index upsert claim). -/
def chunkA : DocumentChunk :=
  { id := "", created_at := "", updated_at := "", document_id := "doc-1", chunk_index := 0,
    content := "alpha", start_position := 0, end_position := 5, embedding := none,
    metadata := [] }

def chunkB : DocumentChunk :=
  { id := "", created_at := "", updated_at := "", document_id := "doc-1", chunk_index := 1,
    content := "beta", start_position := 5, end_position := 9, embedding := none,
    metadata := [] }

def chunkA2 : DocumentChunk := { chunkA with content := "alpha revised" }

/-- A relationship both of whose endpoint ids are absent from the store:
the failing input of the referential-violation claim. -/
def ghostRelationship : Relationship :=
  { id := "r1"
    created_at := ""
    updated_at := ""
    source_entity_id := "missing-src"
    target_entity_id := "missing-tgt"
    relationship_type := RelationshipType.partners_with
    properties := []
    confidence_score := 1
    source_documents := ["doc-7"]
    extraction_method := "llm" }

/-- A concrete entity used by the witnesses. -/
def acmeCorp : Entity :=
  { id := "e-acme"
    created_at := ""
    updated_at := ""
    name := "Acme Corp"
    entity_type := EntityType.company
    description := some "A company"
    attributes := []
    confidence_score := 1
    source_documents := ["doc-1"]
    extraction_method := "llm"
    aliases := []
    tags := [] }

/-- A store whose graph search matches only the exact term "acme"
(honouring the search limit), with every other collaborator failing:
the Entity Retriever fallback scenario. -/
def acmeOnlyStores : Stores :=
  { searchEntities := fun q limit =>
      Except.ok ((if q = "acme" then [acmeCorp] else []).take limit)
    entityRelationships := fun _ => Except.error "down"
    collectionQuery := fun _ _ _ => Except.error "down"
    genContent := fun _ => Except.error "down"
    parseIntent := fun _ => none }

theorem chunkLoop_recon (cs ov : Nat) (rem : List String) : ∀ (buf : List String) (curLen : Nat),
    (spansAll (chunkLoop cs ov rem buf curLen) = [] → buf = [] ∧ rem = []) ∧
    (∀ b bs, spansAll (chunkLoop cs ov rem buf curLen) = b :: bs →
      (∃ t, b = buf ++ t) ∧ buf ++ rem = b ++ glue ov b bs) := by
  induction rem with
  | nil =>
    intro buf curLen
    refine ⟨?_, ?_⟩
    · intro h
      cases hb : buf with
      | nil => exact ⟨rfl, rfl⟩
      | cons x xs =>
        exfalso
        rw [hb] at h
        simp [chunkLoop, spansAll] at h
    · intro b bs h
      cases hb : buf with
      | nil =>
        rw [hb] at h; simp [chunkLoop, spansAll] at h
      | cons x xs =>
        rw [hb] at h
        simp [chunkLoop, spansAll] at h
        obtain ⟨hb1, hbs⟩ := h
        refine ⟨⟨[], by simp [hb1]⟩, ?_⟩
        subst hbs
        simp [← hb1, glue]
  | cons w ws ih =>
    intro buf curLen
    by_cases hcs : cs ≤ curLen + w.length + 1
    · -- emission branch
      have hloop : chunkLoop cs ov (w :: ws) buf curLen =
          ((buf ++ [w]) :: (chunkLoop cs ov ws (seedOf ov (buf ++ [w]))
            (sumLen (seedOf ov (buf ++ [w])))).1,
           (chunkLoop cs ov ws (seedOf ov (buf ++ [w]))
            (sumLen (seedOf ov (buf ++ [w])))).2) := by
        simp [chunkLoop, hcs]
      refine ⟨?_, ?_⟩
      · intro h
        rw [hloop] at h
        simp [spansAll] at h
      · intro b bs h
        rw [hloop] at h
        have hsplit : b = buf ++ [w] ∧
            bs = spansAll (chunkLoop cs ov ws (seedOf ov (buf ++ [w]))
              (sumLen (seedOf ov (buf ++ [w])))) := by
          simp [spansAll] at h ⊢
          exact ⟨h.1.symm, h.2.symm⟩
        obtain ⟨hb, hbs⟩ := hsplit
        subst hb
        refine ⟨⟨[w], rfl⟩, ?_⟩
        set seed := seedOf ov (buf ++ [w]) with hseed
        have ihseed := ih seed (sumLen seed)
        cases hsp : spansAll (chunkLoop cs ov ws seed (sumLen seed)) with
        | nil =>
          obtain ⟨hseednil, hwsnil⟩ := (ihseed.1) hsp
          subst hwsnil
          rw [hbs, hsp]
          simp [glue]
        | cons b2 bs2 =>
          obtain ⟨⟨t2, hb2⟩, hrec⟩ := (ihseed.2) b2 bs2 hsp
          subst hb2
          rw [hbs, hsp]
          have hdrop : (seed ++ t2).drop (seedOf ov (buf ++ [w])).length = t2 := by
            rw [← hseed, List.drop_left]
          have hws : ws = t2 ++ (glue ov (seed ++ t2) bs2) := by
            have h2 : seed ++ ws = seed ++ (t2 ++ glue ov (seed ++ t2) bs2) := by
              simpa [List.append_assoc] using hrec
            exact List.append_cancel_left h2
          simp [glue, hdrop, hws, List.append_assoc]
    · -- accumulation branch
      have hloop : chunkLoop cs ov (w :: ws) buf curLen =
          chunkLoop cs ov ws (buf ++ [w]) (curLen + w.length + 1) := by
        simp [chunkLoop, hcs]
      have ihb := ih (buf ++ [w]) (curLen + w.length + 1)
      refine ⟨?_, ?_⟩
      · intro h
        rw [hloop] at h
        obtain ⟨habs, _⟩ := (ihb.1) h
        exact absurd habs (by simp)
      · intro b bs h
        rw [hloop] at h
        obtain ⟨⟨t, hb⟩, hrec⟩ := (ihb.2) b bs h
        refine ⟨⟨[w] ++ t, by simp [hb]⟩, ?_⟩
        calc buf ++ w :: ws = (buf ++ [w]) ++ ws := by simp
        _ = b ++ glue ov b bs := hrec

theorem map_comp_snd_enumFrom {α β : Type _} (f : α → β) :
    ∀ (l : List α) (i : Nat), (l.enumFrom i).map (fun q => f q.2) = l.map f := by
  intro l
  induction l with
  | nil => intro i; rfl
  | cons a as ih => intro i; simp [List.enumFrom, ih]

/-- The chunk contents `_create_chunks` builds are exactly the space-joined
word spans of `createChunkSpans` (shared by the chunking claims). -/
theorem map_content_create_chunks (words : List String) (d : String) (cs ov : Nat) :
    (DocumentProcessor._create_chunks words d cs ov).map DocumentChunk.content
      = (createChunkSpans words cs ov).map sjoin := by
  unfold DocumentProcessor._create_chunks createChunkSpans spansAll
  cases hp : chunkLoop cs ov words [] 0 with
  | mk spans fin =>
    simp only [List.map_append, List.enum, List.map_map]
    dsimp only [Function.comp_def]
    rw [map_comp_snd_enumFrom (fun b => sjoin b) spans 0]
    cases hf : fin.isEmpty <;> simp

theorem sumLen_sjoin : ∀ (ws : List String), ws ≠ [] → sumLen ws = (sjoin ws).length + 1 := by
  intro ws
  induction ws with
  | nil => intro h; exact absurd rfl h
  | cons w t ih =>
    intro _
    cases t with
    | nil => simp [sumLen, sjoin]
    | cons x xs =>
      have ht := ih (by simp)
      have h1 : sjoin (w :: x :: xs) = w ++ " " ++ sjoin (x :: xs) := rfl
      have h2 : sumLen (w :: x :: xs) = w.length + 1 + sumLen (x :: xs) := by
        simp [sumLen]
      have hone : (" ").length = 1 := rfl
      have h3 : (w ++ " " ++ sjoin (x :: xs)).length
          = w.length + 1 + (sjoin (x :: xs)).length := by
        simp [String.length_append, hone]
      rw [h1, h2, h3]
      omega

/-- When the running length never reaches the chunk size, the loop emits
nothing and leaves everything in the final buffer. -/
theorem chunkLoop_no_emit (cs ov : Nat) : ∀ (rem buf : List String) (curLen : Nat),
    curLen + sumLen rem < cs → chunkLoop cs ov rem buf curLen = ([], buf ++ rem) := by
  intro rem
  induction rem with
  | nil => intro buf curLen _; simp [chunkLoop]
  | cons w ws ih =>
    intro buf curLen h
    have hs : sumLen (w :: ws) = w.length + 1 + sumLen ws := by
      simp only [sumLen, List.map_cons, List.sum_cons]
    have hlt : ¬ cs ≤ curLen + w.length + 1 := by omega
    have := ih (buf ++ [w]) (curLen + w.length + 1) (by omega)
    simp [chunkLoop, hlt, this]

/-- C5 (amended).  For every word list and all chunk-size/overlap
parameters: the chunk contents are the joined word spans; dropping each
non-first span's seeded overlap words and concatenating in chunk order
reconstructs the original word sequence; empty text yields no chunks; and
text whose running length (text length + 1) stays below the chunk size
yields exactly one chunk spanning the whole text at offsets
0..len(text). -/
theorem create_chunks_reconstruction (words : List String) (d : String) (cs ov : Nat) :
    ((DocumentProcessor._create_chunks words d cs ov).map DocumentChunk.content
        = (createChunkSpans words cs ov).map sjoin)
    ∧ reconstructChunks ov (createChunkSpans words cs ov) = words
    ∧ (words = [] → DocumentProcessor._create_chunks words d cs ov = [])
    ∧ (words ≠ [] → (sjoin words).length + 1 < cs →
        (DocumentProcessor._create_chunks words d cs ov).map
            (fun c => (c.chunk_index, c.content, c.start_position, c.end_position))
          = [(0, sjoin words, 0, (sjoin words).length)]) := by
  refine ⟨map_content_create_chunks words d cs ov, ?_, ?_, ?_⟩
  · cases hsp : createChunkSpans words cs ov with
    | nil =>
      have h := (chunkLoop_recon cs ov words [] 0).1
      unfold createChunkSpans at hsp
      obtain ⟨-, hw⟩ := h hsp
      subst hw
      rfl
    | cons b bs =>
      have h := (chunkLoop_recon cs ov words [] 0).2 b bs
      unfold createChunkSpans at hsp
      obtain ⟨-, hrec⟩ := h hsp
      simp only [List.nil_append] at hrec
      simp [reconstructChunks, ← hrec]
  · intro h; subst h; rfl
  · intro hne hlen
    have hsum : sumLen words < cs := by
      rw [sumLen_sjoin words hne]; omega
    have hloop := chunkLoop_no_emit cs ov words [] 0 (by simpa using hsum)
    obtain ⟨w0, ws0, rfl⟩ : ∃ a l, words = a :: l := by
      cases words with
      | nil => exact absurd rfl hne
      | cons a l => exact ⟨a, l, rfl⟩
    unfold DocumentProcessor._create_chunks
    rw [hloop]
    simp

/-- C5 counterexample.  With chunk size 6 and positive overlap 10, the
normalized text "ab cd" has length 5 (shorter than one chunk), yet the
chunker emits two chunks, the second repeating the seeded overlap word. -/
theorem create_chunks_short_text_two_chunks :
    (sjoin ["ab", "cd"]).length < 6
      ∧ (DocumentProcessor._create_chunks ["ab", "cd"] ("d") 6 10).length = 2
      ∧ (DocumentProcessor._create_chunks ["ab", "cd"] ("d") 6 10).map
          DocumentChunk.content = ["ab cd", "cd"] := by
  refine ⟨by decide, by decide, by decide⟩

/-- C5 witness: the reconstruction and the single-chunk edge case at
concrete inputs. -/
theorem create_chunks_reconstruction_witness :
    reconstructChunks 20 (createChunkSpans ["hello", "brave", "new", "world"] 10 20)
        = ["hello", "brave", "new", "world"]
      ∧ (DocumentProcessor._create_chunks ["ab"] ("d") 9 10).map
          (fun c => (c.chunk_index, c.content, c.start_position, c.end_position))
          = [(0, "ab", 0, 2)] :=
  ⟨(create_chunks_reconstruction ["hello", "brave", "new", "world"] ("d") 10 20).2.1,
   by
    have h := (create_chunks_reconstruction ["ab"] ("d") 9 10).2.2.2
      (by decide) (by decide)
    simpa using h⟩

theorem chunkLoop_chain (cs ov : Nat) (rem : List String) : ∀ (buf : List String) (curLen : Nat),
    List.Chain' (fun a b : List String => (ov / 10) ≤ a.length →
      b.take (ov / 10) = a.drop (a.length - ov / 10))
      (spansAll (chunkLoop cs ov rem buf curLen)) := by
  induction rem with
  | nil =>
    intro buf curLen
    cases buf with
    | nil => simp [chunkLoop, spansAll]
    | cons x xs => simp [chunkLoop, spansAll]
  | cons w ws ih =>
    intro buf curLen
    by_cases hcs : cs ≤ curLen + w.length + 1
    · have hloop : spansAll (chunkLoop cs ov (w :: ws) buf curLen) =
          (buf ++ [w]) :: spansAll (chunkLoop cs ov ws (seedOf ov (buf ++ [w]))
            (sumLen (seedOf ov (buf ++ [w])))) := by
        simp [chunkLoop, hcs, spansAll]
      rw [hloop, List.chain'_cons']
      refine ⟨?_, ih (seedOf ov (buf ++ [w])) (sumLen (seedOf ov (buf ++ [w])))⟩
      intro y hy
      set seed := seedOf ov (buf ++ [w]) with hseeddef
      cases hsp : spansAll (chunkLoop cs ov ws seed (sumLen seed)) with
      | nil => rw [hsp] at hy; simp at hy
      | cons b2 bs2 =>
        rw [hsp] at hy
        simp only [List.head?_cons, Option.mem_some_iff] at hy
        subst hy
        obtain ⟨⟨t2, hb2⟩, -⟩ := (chunkLoop_recon cs ov ws seed (sumLen seed)).2 b2 bs2 hsp
        intro hk
        by_cases hk0 : ov / 10 = 0
        · simp [hk0, List.drop_length]
        · have hovpos : 0 < ov := by
            rcases Nat.eq_zero_or_pos ov with h0 | h
            · subst h0; simp at hk0
            · exact h
          have hseed : seed = (buf ++ [w]).drop ((buf ++ [w]).length - ov / 10) := by
            rw [hseeddef]; simp [seedOf, hovpos, pySliceLast, hk0]
          have hlen : seed.length = ov / 10 := by
            rw [hseed, List.length_drop]; omega
          calc b2.take (ov / 10) = (seed ++ t2).take seed.length := by rw [hb2, hlen]
            _ = seed := List.take_left seed t2
            _ = (buf ++ [w]).drop ((buf ++ [w]).length - ov / 10) := hseed
    · have hloop : chunkLoop cs ov (w :: ws) buf curLen =
          chunkLoop cs ov ws (buf ++ [w]) (curLen + w.length + 1) := by
        simp [chunkLoop, hcs]
      rw [hloop]
      exact ih (buf ++ [w]) (curLen + w.length + 1)

/-- C8: at every boundary between consecutive chunks, whenever the
preceding chunk holds at least `overlap / 10` words (the configured
overlap word count, e.g. 200 / 10 = 20), the following chunk's leading
`overlap / 10` words are exactly the preceding chunk's trailing
`overlap / 10` words; and the chunk contents are the joined spans. -/
theorem create_chunks_overlap_boundary (words : List String) (d : String) (cs ov : Nat) :
    List.Chain' (fun a b : List String => (ov / 10) ≤ a.length →
        b.take (ov / 10) = a.drop (a.length - ov / 10)) (createChunkSpans words cs ov)
      ∧ (DocumentProcessor._create_chunks words d cs ov).map DocumentChunk.content
        = (createChunkSpans words cs ov).map sjoin :=
  ⟨chunkLoop_chain cs ov words [] 0, map_content_create_chunks words d cs ov⟩

/-- C8 witness: the boundary property at a concrete 8-word text chunked
with size 10 and overlap 20 (2 overlap words per boundary). -/
theorem create_chunks_overlap_boundary_witness :
    List.Chain' (fun a b : List String => (20 / 10) ≤ a.length →
        b.take (20 / 10) = a.drop (a.length - 20 / 10))
        (createChunkSpans ["w1", "w2", "w3", "w4", "w5", "w6", "w7", "w8"] 10 20)
      ∧ (DocumentProcessor._create_chunks ["w1", "w2", "w3", "w4", "w5", "w6", "w7", "w8"]
          ("d") 10 20).map DocumentChunk.content
        = (createChunkSpans ["w1", "w2", "w3", "w4", "w5", "w6", "w7", "w8"] 10 20).map sjoin :=
  create_chunks_overlap_boundary ["w1", "w2", "w3", "w4", "w5", "w6", "w7", "w8"] ("d") 10 20

/-- C3: the chunk offsets the code computes are not non-decreasing.  On
the normalized text "aaaaaaaaa a b c d e" with chunk size 10 and overlap
0, the first chunk gets start offset 17 and the second start offset 9
(every in-loop chunk's end offset is the whole text length, and the
start expression uses the total word count instead of the consumed
count). -/
theorem create_chunks_offsets_not_monotone :
    ((DocumentProcessor._create_chunks ["aaaaaaaaa", "a", "b", "c", "d", "e"] ("doc") 10 0).map
        (fun c => (c.start_position, c.end_position)) = [(17, 19), (9, 19)])
      ∧ ¬ List.Pairwise (fun a b => a.start_position ≤ b.start_position)
          (DocumentProcessor._create_chunks ["aaaaaaaaa", "a", "b", "c", "d", "e"] ("doc") 10 0) := by
  refine ⟨by decide, by decide⟩

/-- C2 (code evaluation): upserting a relationship whose endpoint
entities do not exist returns `True` — the same success value as a real
creation — and leaves the store (in particular its relationship set)
unchanged.  The referential violation is silently dropped, not reported
as a creation failure. -/
theorem create_relationship_missing_endpoints_silent :
    KnowledgeGraph.create_relationship ghostRelationship emptyGraph = (emptyGraph, true) := by
  decide

theorem setEntityFields_id (e n : Entity) : (setEntityFields e n).id = n.id := rfl

theorem setEntityFields_idem (e n : Entity) :
    setEntityFields e (setEntityFields e n) = setEntityFields e n := rfl

theorem setEntityFields_self (e : Entity) : setEntityFields e e = e := rfl

/-- C9: upserting the same entity twice with identical field values
leaves the graph store — and therefore its statistics — exactly as a
single upsert does, and both calls report success. -/
theorem create_entity_idempotent (e : Entity) (st : GraphState) :
    KnowledgeGraph.create_entity e (KnowledgeGraph.create_entity e st).1
        = KnowledgeGraph.create_entity e st
      ∧ (KnowledgeGraph.create_entity e st).2 = true
      ∧ KnowledgeGraph.get_graph_statistics
          (KnowledgeGraph.create_entity e (KnowledgeGraph.create_entity e st).1).1
        = KnowledgeGraph.get_graph_statistics (KnowledgeGraph.create_entity e st).1 := by
  have hmain : KnowledgeGraph.create_entity e (KnowledgeGraph.create_entity e st).1
      = KnowledgeGraph.create_entity e st := by
    unfold KnowledgeGraph.create_entity
    by_cases h : st.entities.any (fun n => n.id == e.id) = true
    · have hmap : (st.entities.map
          (fun n => if n.id = e.id then setEntityFields e n else n)).any
            (fun n => n.id == e.id) = true := by
        rw [List.any_map]
        have : ((fun n : Entity => n.id == e.id) ∘
            (fun n => if n.id = e.id then setEntityFields e n else n))
            = fun n : Entity => n.id == e.id := by
          funext n
          by_cases hn : n.id = e.id <;> simp [hn, setEntityFields_id]
        rw [this]
        exact h
      simp only [h, if_true, hmap]
      have hmm : (st.entities.map
            (fun n => if n.id = e.id then setEntityFields e n else n)).map
            (fun n => if n.id = e.id then setEntityFields e n else n)
          = st.entities.map (fun n => if n.id = e.id then setEntityFields e n else n) := by
        rw [List.map_map]
        apply List.map_congr_left
        intro n _
        by_cases hn : n.id = e.id
        · simp [Function.comp, hn, setEntityFields_id, setEntityFields_idem]
        · simp [Function.comp, hn]
      simp [hmm]
    · have hnot : ∀ n ∈ st.entities, ¬ n.id = e.id := by
        intro n hn heq
        apply h
        rw [List.any_eq_true]
        exact ⟨n, hn, beq_iff_eq.mpr heq⟩
      have happ : ((st.entities ++ [e]).any (fun n => n.id == e.id)) = true := by
        simp [List.any_append]
      simp only [h, if_false, Bool.false_eq_true, happ, if_true]
      have hmm : (st.entities ++ [e]).map
            (fun n => if n.id = e.id then setEntityFields e n else n)
          = st.entities ++ [e] := by
        rw [List.map_append]
        congr 1
        · calc st.entities.map (fun n => if n.id = e.id then setEntityFields e n else n)
              = st.entities.map id := by
                apply List.map_congr_left
                intro n hn
                simp [hnot n hn]
          _ = st.entities := List.map_id st.entities
        · simp [setEntityFields_self]
      simp [hmm]
  refine ⟨hmain, ?_, by rw [hmain]⟩
  unfold KnowledgeGraph.create_entity
  by_cases h : st.entities.any (fun n => n.id == e.id) = true <;> simp [h]

/-- C9 witness: the idempotence at a concrete entity and a concrete
store. -/
theorem create_entity_idempotent_witness :
    KnowledgeGraph.create_entity acmeCorp
          (KnowledgeGraph.create_entity acmeCorp emptyGraph).1
        = KnowledgeGraph.create_entity acmeCorp emptyGraph
      ∧ (KnowledgeGraph.create_entity acmeCorp emptyGraph).2 = true
      ∧ KnowledgeGraph.get_graph_statistics
          (KnowledgeGraph.create_entity acmeCorp
            (KnowledgeGraph.create_entity acmeCorp emptyGraph).1).1
        = KnowledgeGraph.get_graph_statistics
            (KnowledgeGraph.create_entity acmeCorp emptyGraph).1 :=
  create_entity_idempotent acmeCorp emptyGraph

theorem pairwise_mergeSort_desc (l : List SimilarChunk) :
    (l.mergeSort descBySimilarity).Pairwise
      (fun a b => b.similarity_score ≤ a.similarity_score) := by
  have htrans : ∀ a b c : SimilarChunk, descBySimilarity a b → descBySimilarity b c →
      descBySimilarity a c := by
    intro a b c hab hbc
    simp only [descBySimilarity, decide_eq_true_eq] at hab hbc ⊢
    exact le_trans hbc hab
  have htotal : ∀ a b : SimilarChunk, descBySimilarity a b || descBySimilarity b a := by
    intro a b
    rcases le_total a.similarity_score b.similarity_score with h | h <;>
      simp [descBySimilarity, h]
  have hs := List.sorted_mergeSort htrans htotal l
  exact hs.imp (fun hab => by
    simpa [descBySimilarity, decide_eq_true_eq] using hab)

theorem processQueryOutcome_props (threshold : ℚ) (limit : Nat)
    (x : Except String QueryResult)
    (hx : ∀ r, x = Except.ok r → r.documents.length ≤ limit) :
    (VectorStore.processQueryOutcome threshold x).length ≤ limit
      ∧ (∀ c ∈ VectorStore.processQueryOutcome threshold x,
          threshold ≤ c.similarity_score)
      ∧ List.Pairwise (fun a b => b.similarity_score ≤ a.similarity_score)
          (VectorStore.processQueryOutcome threshold x) := by
  unfold VectorStore.processQueryOutcome
  cases x with
  | error e => exact ⟨by simp, by intro c hc; simp at hc, by simp⟩
  | ok r =>
    refine ⟨?_, ?_, pairwise_mergeSort_desc _⟩
    · rw [List.length_mergeSort]
      split
      · simp
      · refine le_trans (List.length_filterMap_le _ _) ?_
        rw [List.length_zip]
        exact le_trans (Nat.min_le_left _ _) (hx r rfl)
    · intro c hc
      rw [List.mem_mergeSort] at hc
      split at hc
      · simp at hc
      · rw [List.mem_filterMap] at hc
        obtain ⟨p, -, hfp⟩ := hc
        dsimp only at hfp
        by_cases ht : threshold ≤ 1 - p.2.2
        · rw [if_pos ht] at hfp
          obtain rfl := Option.some.inj hfp
          exact ht
        · rw [if_neg ht] at hfp
          exact absurd hfp (by simp)

/-- C7: the vector search returns at most `limit` chunks (given that the
external store honours `n_results`), every returned chunk's similarity
score `1 - distance` is at least the threshold, and the result is sorted
in descending similarity order. -/
theorem search_similar_bounded_threshold_sorted (st : Stores) (query : String)
    (limit : Nat) (document_ids : Option (List String)) (threshold : ℚ)
    (hstore : ∀ f r, st.collectionQuery query limit f = Except.ok r →
      r.documents.length ≤ limit) :
    (VectorStore.search_similar st query limit document_ids threshold).length ≤ limit
      ∧ (∀ c ∈ VectorStore.search_similar st query limit document_ids threshold,
          threshold ≤ c.similarity_score)
      ∧ List.Pairwise (fun a b => b.similarity_score ≤ a.similarity_score)
          (VectorStore.search_similar st query limit document_ids threshold) := by
  unfold VectorStore.search_similar
  exact processQueryOutcome_props threshold limit _ (fun r hr => hstore _ r hr)

/-- C7 witness: the three properties at a concrete store answering two
rows with distances 1/4 and 1/10. -/
theorem search_similar_witness :
    (VectorStore.search_similar sampleStores ("q") 5 none (3 / 5)).length ≤ 5
      ∧ (∀ c ∈ VectorStore.search_similar sampleStores ("q") 5 none (3 / 5),
          (3 / 5 : ℚ) ≤ c.similarity_score)
      ∧ List.Pairwise (fun a b => b.similarity_score ≤ a.similarity_score)
          (VectorStore.search_similar sampleStores ("q") 5 none (3 / 5)) :=
  search_similar_bounded_threshold_sorted sampleStores ("q") 5 none (3 / 5)
    (by
      intro f r h
      simp only [sampleStores, Except.ok.injEq] at h
      subst h
      decide)

theorem find_map_upd (i d : String) (m : List (String × MVal)) : ∀ (c : Collection),
    c.any (fun e => e.1 == i) = true →
    (c.map (fun e => if e.1 = i then (i, d, m) else e)).find? (fun e => e.1 == i)
      = some (i, d, m) := by
  intro c
  induction c with
  | nil => intro h; simp at h
  | cons e0 rest ih =>
    intro h
    by_cases h0 : e0.1 = i
    · simp [List.find?_cons_of_pos, h0]
    · have hrest : rest.any (fun e => e.1 == i) = true := by
        simp only [List.any_cons, Bool.or_eq_true] at h
        rcases h with h | h
        · exact absurd (beq_iff_eq.mp h) h0
        · exact h
      rw [List.map_cons, List.find?_cons_of_neg, ih hrest]
      simp [h0]

theorem find_append_single (i d : String) (m : List (String × MVal)) : ∀ (c : Collection),
    c.any (fun e => e.1 == i) = false →
    (c ++ [(i, d, m)]).find? (fun e => e.1 == i) = some (i, d, m) := by
  intro c
  induction c with
  | nil => intro _; simp
  | cons e0 rest ih =>
    intro h
    simp only [List.any_cons, Bool.or_eq_false_iff] at h
    rw [List.cons_append, List.find?_cons_of_neg _ (by rw [h.1]; exact Bool.false_ne_true)]
    exact ih h.2

theorem collLookup_upsert_self (c : Collection) (i d : String) (m : List (String × MVal)) :
    collLookup (collUpsertOne c i d m) i = some (d, m) := by
  unfold collLookup collUpsertOne
  by_cases hany : c.any (fun e => e.1 == i) = true
  · rw [if_pos hany, find_map_upd i d m c hany]
    rfl
  · rw [Bool.not_eq_true] at hany
    rw [if_neg (by rw [hany]; exact Bool.false_ne_true), find_append_single i d m c hany]
    rfl

theorem find_map_upd_ne (i j d : String) (m : List (String × MVal)) (hij : i ≠ j) :
    ∀ (c : Collection),
    (c.map (fun e => if e.1 = i then (i, d, m) else e)).find? (fun e => e.1 == j)
      = c.find? (fun e => e.1 == j) := by
  intro c
  induction c with
  | nil => rfl
  | cons e0 rest ih =>
    by_cases h0 : e0.1 = i
    · have hj : ¬ e0.1 = j := by rw [h0]; exact hij
      rw [List.map_cons, if_pos h0, List.find?_cons_of_neg, List.find?_cons_of_neg, ih]
      · simp [hj]
      · simp [hij]
    · rw [List.map_cons, if_neg h0]
      by_cases hj : e0.1 = j
      · rw [List.find?_cons_of_pos, List.find?_cons_of_pos] <;> simp [hj]
      · rw [List.find?_cons_of_neg, List.find?_cons_of_neg, ih] <;> simp [hj]

theorem collLookup_upsert_ne (c : Collection) (i j d : String) (m : List (String × MVal))
    (hij : i ≠ j) : collLookup (collUpsertOne c i d m) j = collLookup c j := by
  unfold collLookup collUpsertOne
  by_cases hany : c.any (fun e => e.1 == i) = true
  · rw [if_pos hany, find_map_upd_ne i j d m hij c]
  · rw [Bool.not_eq_true] at hany
    rw [if_neg (by rw [hany]; exact Bool.false_ne_true), List.find?_append]
    cases hf : c.find? (fun e => e.1 == j) with
    | some x => rfl
    | none => simp [beq_iff_eq, hij]

theorem collLookup_collAdd_not_mem :
    ∀ (entries : List (String × String × List (String × MVal))) (c : Collection) (k : String),
    k ∉ entries.map (fun e => e.1) →
    collLookup (collAdd c entries) k = collLookup c k := by
  intro entries
  induction entries with
  | nil => intro c k _; rfl
  | cons e0 rest ih =>
    intro c k h
    simp only [List.map_cons, List.mem_cons, not_or] at h
    obtain ⟨h1, h2⟩ := h
    simp only [collAdd, List.foldl_cons] at ih ⊢
    rw [ih _ k h2, collLookup_upsert_ne _ _ _ _ _ (fun he => h1 he.symm)]

theorem collLookup_collAdd_mem :
    ∀ (entries : List (String × String × List (String × MVal))),
    (entries.map (fun e => e.1)).Nodup →
    ∀ (c : Collection), ∀ ent ∈ entries, collLookup (collAdd c entries) ent.1 = some ent.2 := by
  intro entries
  induction entries with
  | nil => intro _ c ent h; simp at h
  | cons e0 rest ih =>
    intro hnd c ent hent
    simp only [List.map_cons, List.nodup_cons] at hnd
    obtain ⟨hnotin, hndrest⟩ := hnd
    simp only [collAdd, List.foldl_cons] at ih ⊢
    rcases List.mem_cons.1 hent with he | he
    · subst he
      rw [show (rest.foldl (fun acc e => collUpsertOne acc e.1 e.2.1 e.2.2)
          (collUpsertOne c ent.1 ent.2.1 ent.2.2)) = collAdd
          (collUpsertOne c ent.1 ent.2.1 ent.2.2) rest from rfl,
        collLookup_collAdd_not_mem rest _ ent.1 hnotin]
      exact collLookup_upsert_self c ent.1 ent.2.1 ent.2.2
    · exact ih hndrest _ ent he

theorem collKeys_upsert (c : Collection) (i d : String) (m : List (String × MVal)) :
    (collUpsertOne c i d m).map (fun e => e.1)
      = if c.any (fun e => e.1 == i) then c.map (fun e => e.1)
        else c.map (fun e => e.1) ++ [i] := by
  unfold collUpsertOne
  split
  · rw [List.map_map]
    apply List.map_congr_left
    intro e _
    by_cases h : e.1 = i <;> simp [Function.comp, h]
  · simp

theorem collKeys_nodup_upsert (c : Collection) (i d : String) (m : List (String × MVal))
    (h : (c.map (fun e => e.1)).Nodup) :
    ((collUpsertOne c i d m).map (fun e => e.1)).Nodup := by
  rw [collKeys_upsert]
  by_cases hany : c.any (fun e => e.1 == i) = true
  · rw [if_pos hany]
    exact h
  · have hni : i ∉ c.map (fun e => e.1) := by
      intro hm
      rcases List.mem_map.1 hm with ⟨e, he, hei⟩
      exact hany (List.any_eq_true.2 ⟨e, he, beq_iff_eq.mpr hei⟩)
    rw [if_neg hany]
    simp [List.nodup_append, h, hni]

theorem collKeys_nodup_collAdd :
    ∀ (entries : List (String × String × List (String × MVal))) (c : Collection),
    (c.map (fun e => e.1)).Nodup → ((collAdd c entries).map (fun e => e.1)).Nodup := by
  intro entries
  induction entries with
  | nil => intro c h; exact h
  | cons e0 rest ih =>
    intro c h
    simp only [collAdd, List.foldl_cons] at ih ⊢
    exact ih _ (collKeys_nodup_upsert c e0.1 e0.2.1 e0.2.2 h)

theorem zip_map_entries (chunks : List DocumentChunk) :
    (chunks.map chunkKey).zip ((chunks.map (fun ch => ch.content)).zip
        (chunks.map chunkMetadata))
      = chunks.map (fun ch => (chunkKey ch, ch.content, chunkMetadata ch)) := by
  induction chunks with
  | nil => rfl
  | cons ch rest ih => simp [ih]

/-- C4: `add_chunks` reports success, stores every chunk of the batch
under the key `"{document_id}_{chunk_index}"` with exactly its content
and constructed metadata — over ANY prior collection state, so re-adding
a batch whose keys are already stored replaces the stored content and
metadata and still succeeds — and never duplicates a key. -/
theorem add_chunks_upserts (c : Collection) (chunks : List DocumentChunk)
    (hnd : (chunks.map chunkKey).Nodup) :
    (VectorStore.add_chunks c chunks).2 = true
      ∧ (∀ ch ∈ chunks,
          collLookup (VectorStore.add_chunks c chunks).1 (chunkKey ch)
            = some (ch.content, chunkMetadata ch))
      ∧ ((c.map (fun e => e.1)).Nodup →
          (((VectorStore.add_chunks c chunks).1).map (fun e => e.1)).Nodup) := by
  unfold VectorStore.add_chunks
  by_cases hch : chunks.isEmpty = true
  · have hempty : chunks = [] := List.isEmpty_iff.1 hch
    subst hempty
    exact ⟨rfl, by intro ch h; simp at h, fun h => h⟩
  · rw [if_neg hch]
    dsimp only
    rw [zip_map_entries]
    have hkeys : ((chunks.map (fun ch => (chunkKey ch, ch.content, chunkMetadata ch))).map
        (fun e => e.1)) = chunks.map chunkKey := by
      rw [List.map_map]; rfl
    refine ⟨rfl, ?_, ?_⟩
    · intro ch hme
      have hmem : (chunkKey ch, ch.content, chunkMetadata ch)
          ∈ chunks.map (fun ch => (chunkKey ch, ch.content, chunkMetadata ch)) :=
        List.mem_map.2 ⟨ch, hme, rfl⟩
      exact collLookup_collAdd_mem _ (by rw [hkeys]; exact hnd) c _ hmem
    · intro h
      exact collKeys_nodup_collAdd _ c h

/-- C4 witness: indexing two chunks of doc-1, then re-adding a revised
chunk with the already-stored key "doc-1_0": success, replacement, no
duplicate keys. -/
theorem add_chunks_upserts_witness :
    (VectorStore.add_chunks ((VectorStore.add_chunks ([] : Collection)
          [chunkA, chunkB]).1) [chunkA2]).2 = true
      ∧ (∀ ch ∈ [chunkA2],
          collLookup (VectorStore.add_chunks ((VectorStore.add_chunks ([] : Collection)
              [chunkA, chunkB]).1) [chunkA2]).1 (chunkKey ch)
            = some (ch.content, chunkMetadata ch))
      ∧ ((((VectorStore.add_chunks ([] : Collection) [chunkA, chunkB]).1).map
            (fun e => e.1)).Nodup →
          (((VectorStore.add_chunks ((VectorStore.add_chunks ([] : Collection)
              [chunkA, chunkB]).1) [chunkA2]).1).map (fun e => e.1)).Nodup) :=
  add_chunks_upserts ((VectorStore.add_chunks ([] : Collection) [chunkA, chunkB]).1)
    [chunkA2] (by decide)

theorem foldl_append_flatMap {α β : Type _} (f : α → List β) :
    ∀ (l : List α) (init : List β),
    l.foldl (fun acc x => acc ++ f x) init = init ++ l.flatMap f := by
  intro l
  induction l with
  | nil => intro init; simp
  | cons x xs ih => intro init; simp [ih, List.flatMap_cons, List.append_assoc]

/-- C10: every relationship the context builder places in the context
carries only source id, target id and relationship type — its other
fields keep their defaults, in particular an empty source-document
list — so the contributing-document set is exactly the union of the
entities' source documents and the chunks' metadata document ids,
relationships contributing nothing. -/
theorem relationships_carry_no_documents (st : Stores) (entities : List Entity)
    (intent : IntentAnalysis) (ents2 : List Entity) (chunks : List SimilarChunk) :
    (∀ rel ∈ ContextEngine._get_relevant_relationships st entities intent,
        rel.source_documents = [] ∧ rel.properties = [] ∧ rel.confidence_score = 1)
      ∧ ContextEngine._extract_document_ids ents2
          (ContextEngine._get_relevant_relationships st entities intent) chunks
        = ((ents2.flatMap (fun e => e.source_documents)).map MVal.s).toFinset
            ∪ (chunks.filterMap (fun c => c.metadata.lookup ("document_id"))).toFinset := by
  have hmem : ∀ rel ∈ ContextEngine._get_relevant_relationships st entities intent,
      ∃ row, rel = ContextEngine.relationshipOfRow row := by
    intro rel hrel
    unfold ContextEngine._get_relevant_relationships at hrel
    have h1 := List.mem_of_mem_take hrel
    rw [foldl_append_flatMap] at h1
    simp only [List.nil_append, List.mem_flatMap] at h1
    obtain ⟨entity, -, hmap⟩ := h1
    rcases List.mem_map.1 hmap with ⟨row, -, heq⟩
    exact ⟨row, heq.symm⟩
  constructor
  · intro rel hrel
    obtain ⟨row, rfl⟩ := hmem rel hrel
    exact ⟨rfl, rfl, rfl⟩
  · unfold ContextEngine._extract_document_ids
    have hflat : (ContextEngine._get_relevant_relationships st entities intent).flatMap
        (fun r => r.source_documents) = [] := by
      rw [List.flatMap_eq_nil_iff]
      intro r hr
      obtain ⟨row, rfl⟩ := hmem r hr
      rfl
    rw [hflat, List.append_nil]

/-- C10 witness: the two conjuncts at a concrete store and concrete
context components. -/
theorem relationships_carry_no_documents_witness :
    (∀ rel ∈ ContextEngine._get_relevant_relationships sampleStores [acmeCorp]
        AIService._default_intent_analysis,
        rel.source_documents = [] ∧ rel.properties = [] ∧ rel.confidence_score = 1)
      ∧ ContextEngine._extract_document_ids [acmeCorp]
          (ContextEngine._get_relevant_relationships sampleStores [acmeCorp]
            AIService._default_intent_analysis) []
        = (([acmeCorp].flatMap (fun e => e.source_documents)).map MVal.s).toFinset
            ∪ (([] : List SimilarChunk).filterMap
                (fun c => c.metadata.lookup ("document_id"))).toFinset :=
  relationships_carry_no_documents sampleStores [acmeCorp]
    AIService._default_intent_analysis [acmeCorp] []

theorem dedupUpd_ne_nil (acc : List Entity) (e : Entity) :
    ContextEngine.dedupUpd acc e ≠ [] := by
  cases acc with
  | nil => simp [ContextEngine.dedupUpd]
  | cons x xs =>
    unfold ContextEngine.dedupUpd
    by_cases h : x.id = e.id <;> simp [h]

theorem map_id_dedupUpd (acc : List Entity) (e : Entity) :
    (ContextEngine.dedupUpd acc e).map (fun x => x.id)
      = if e.id ∈ acc.map (fun x => x.id) then acc.map (fun x => x.id)
        else acc.map (fun x => x.id) ++ [e.id] := by
  induction acc with
  | nil => simp [ContextEngine.dedupUpd]
  | cons x xs ih =>
    unfold ContextEngine.dedupUpd
    by_cases h : x.id = e.id
    · rw [if_pos h, if_pos (by rw [List.map_cons, h]; exact List.mem_cons_self _ _)]
      simp [h]
    · rw [if_neg h, List.map_cons, List.map_cons, ih]
      by_cases hm : e.id ∈ xs.map (fun x => x.id)
      · rw [if_pos hm, if_pos (List.mem_cons_of_mem _ hm)]
      · rw [if_neg hm, if_neg ?notin]
        · simp
        case notin =>
          intro hmem
          rcases List.mem_cons.1 hmem with he | he
          · exact h he.symm
          · exact hm he

theorem map_id_foldl_dedupUpd_nodup :
    ∀ (l acc : List Entity), ((acc.map (fun x => x.id)).Nodup) →
    (((l.foldl ContextEngine.dedupUpd acc).map (fun x => x.id)).Nodup) := by
  intro l
  induction l with
  | nil => intro acc h; exact h
  | cons e es ih =>
    intro acc h
    rw [List.foldl_cons]
    apply ih
    rw [map_id_dedupUpd]
    by_cases hm : e.id ∈ acc.map (fun x => x.id)
    · rw [if_pos hm]; exact h
    · rw [if_neg hm]
      simp [List.nodup_append, h, hm]

theorem pyDictDedup_nodup (l : List Entity) :
    ((ContextEngine.pyDictDedup l).map (fun x => x.id)).Nodup :=
  map_id_foldl_dedupUpd_nodup l [] (by simp)

theorem foldl_dedupUpd_ne_nil : ∀ (l acc : List Entity), acc ≠ [] →
    l.foldl ContextEngine.dedupUpd acc ≠ [] := by
  intro l
  induction l with
  | nil => intro acc h; exact h
  | cons e es ih =>
    intro acc _
    rw [List.foldl_cons]
    exact ih _ (dedupUpd_ne_nil acc e)

theorem pyDictDedup_ne_nil (l : List Entity) (h : l ≠ []) :
    ContextEngine.pyDictDedup l ≠ [] := by
  cases l with
  | nil => exact absurd rfl h
  | cons e es =>
    unfold ContextEngine.pyDictDedup
    rw [List.foldl_cons]
    exact foldl_dedupUpd_ne_nil es (ContextEngine.dedupUpd [] e) (dedupUpd_ne_nil [] e)

theorem dedupUpd_of_not_mem (acc : List Entity) (e : Entity)
    (h : e.id ∉ acc.map (fun x => x.id)) :
    ContextEngine.dedupUpd acc e = acc ++ [e] := by
  induction acc with
  | nil => rfl
  | cons x xs ih =>
    simp only [List.map_cons, List.mem_cons, not_or] at h
    unfold ContextEngine.dedupUpd
    rw [if_neg (fun hx => h.1 hx.symm), ih h.2]
    rfl

theorem foldl_dedupUpd_of_disjoint :
    ∀ (l acc : List Entity), ((l.map (fun x => x.id)).Nodup) →
    (∀ x ∈ l, x.id ∉ acc.map (fun y => y.id)) →
    l.foldl ContextEngine.dedupUpd acc = acc ++ l := by
  intro l
  induction l with
  | nil => intro acc _ _; simp
  | cons e es ih =>
    intro acc hnd hdisj
    simp only [List.map_cons, List.nodup_cons] at hnd
    rw [List.foldl_cons, dedupUpd_of_not_mem acc e (hdisj e (List.mem_cons_self e es))]
    rw [ih (acc ++ [e]) hnd.2 ?disj]
    · simp
    case disj =>
      intro x hx hmem
      rw [List.map_append] at hmem
      rcases List.mem_append.1 hmem with hm | hm
      · exact hdisj x (List.mem_cons_of_mem e hx) hm
      · simp only [List.map_cons, List.map_nil, List.mem_singleton] at hm
        exact hnd.1 (hm ▸ List.mem_map.2 ⟨x, hx, rfl⟩)

theorem pyDictDedup_of_nodup (l : List Entity)
    (h : (l.map (fun x => x.id)).Nodup) : ContextEngine.pyDictDedup l = l := by
  unfold ContextEngine.pyDictDedup
  rw [foldl_dedupUpd_of_disjoint l [] h (by simp)]
  simp

theorem pyDictDedup_idem (l : List Entity) :
    ContextEngine.pyDictDedup (ContextEngine.pyDictDedup l) = ContextEngine.pyDictDedup l :=
  pyDictDedup_of_nodup _ (pyDictDedup_nodup l)

theorem pyDictDedup_append (a b : List Entity) :
    ContextEngine.pyDictDedup (ContextEngine.pyDictDedup a ++ b)
      = ContextEngine.pyDictDedup (a ++ b) := by
  unfold ContextEngine.pyDictDedup
  rw [List.foldl_append, List.foldl_append]
  congr 1
  exact pyDictDedup_idem a

theorem foldl_dedup_step_eq (s : String → List Entity) :
    ∀ (terms : List String) (init : List Entity), terms ≠ [] →
    terms.foldl (fun acc term => ContextEngine.pyDictDedup (acc ++ s term)) init
      = ContextEngine.pyDictDedup (init ++ terms.flatMap s) := by
  intro terms
  induction terms with
  | nil => intro init h; exact absurd rfl h
  | cons t ts ih =>
    intro init _
    rw [List.foldl_cons]
    by_cases hts : ts = []
    · subst hts
      simp [List.flatMap_cons]
    · rw [ih (ContextEngine.pyDictDedup (init ++ s t)) hts, pyDictDedup_append,
        List.flatMap_cons, List.append_assoc]

theorem dedupUpd_of_consistent_mem (acc : List Entity) (e : Entity)
    (hm : e.id ∈ acc.map (fun x => x.id))
    (hcons : ∀ x ∈ acc, x.id = e.id → x = e) :
    ContextEngine.dedupUpd acc e = acc := by
  induction acc with
  | nil => simp at hm
  | cons x xs ih =>
    unfold ContextEngine.dedupUpd
    by_cases hx : x.id = e.id
    · rw [if_pos hx, hcons x (List.mem_cons_self x xs) hx]
    · rw [if_neg hx]
      congr 1
      apply ih
      · rcases List.mem_cons.1 hm with he | he
        · exact absurd he.symm hx
        · exact he
      · intro z hz
        exact hcons z (List.mem_cons_of_mem x hz)

theorem foldl_dedupUpd_eq_skip : ∀ (l acc : List Entity),
    (∀ x y : Entity, (x ∈ acc ∨ x ∈ l) → y ∈ l → x.id = y.id → x = y) →
    l.foldl ContextEngine.dedupUpd acc
      = l.foldl (fun acc e => if acc.any (fun x => x.id == e.id) then acc else acc ++ [e])
          acc := by
  intro l
  induction l with
  | nil => intro acc _; rfl
  | cons e es ih =>
    intro acc hcons
    rw [List.foldl_cons, List.foldl_cons]
    have hstep : ContextEngine.dedupUpd acc e
        = if acc.any (fun x => x.id == e.id) then acc else acc ++ [e] := by
      by_cases hm : acc.any (fun x => x.id == e.id) = true
      · rw [if_pos hm]
        rcases List.any_eq_true.1 hm with ⟨x, hx, hxe⟩
        apply dedupUpd_of_consistent_mem
        · exact List.mem_map.2 ⟨x, hx, beq_iff_eq.mp hxe⟩
        · intro z hz hze
          exact hcons z e (Or.inl hz) (List.mem_cons_self e es) hze
      · rw [if_neg hm]
        apply dedupUpd_of_not_mem
        intro hmem
        rcases List.mem_map.1 hmem with ⟨x, hx, hxi⟩
        exact hm (List.any_eq_true.2 ⟨x, hx, beq_iff_eq.mpr hxi⟩)
    rw [hstep]
    by_cases hm : acc.any (fun x => x.id == e.id) = true
    · rw [if_pos hm]
      apply ih
      intro x y hx hy
      exact hcons x y (hx.imp id (List.mem_cons_of_mem e)) (List.mem_cons_of_mem e hy)
    · rw [if_neg hm]
      apply ih
      intro x y hx hy
      refine hcons x y ?_ (List.mem_cons_of_mem e hy)
      rcases hx with hx | hx
      · rcases List.mem_append.1 hx with h | h
        · exact Or.inl h
        · simp only [List.mem_singleton] at h
          exact Or.inr (h ▸ List.mem_cons_self e es)
      · exact Or.inr (List.mem_cons_of_mem e hx)

theorem foldl_skip_of_disjoint :
    ∀ (l acc : List Entity), ((l.map (fun x => x.id)).Nodup) →
    (∀ x ∈ l, x.id ∉ acc.map (fun y => y.id)) →
    l.foldl (fun acc e => if acc.any (fun x => x.id == e.id) then acc else acc ++ [e]) acc
      = acc ++ l := by
  intro l
  induction l with
  | nil => intro acc _ _; simp
  | cons e es ih =>
    intro acc hnd hdisj
    simp only [List.map_cons, List.nodup_cons] at hnd
    rw [List.foldl_cons, if_neg ?noteq]
    case noteq =>
      intro hany
      rcases List.any_eq_true.1 hany with ⟨x, hx, hxe⟩
      exact hdisj e (List.mem_cons_self e es)
        (List.mem_map.2 ⟨x, hx, beq_iff_eq.mp hxe⟩)
    rw [ih (acc ++ [e]) hnd.2 ?disj]
    · simp
    case disj =>
      intro x hx hmem
      rw [List.map_append] at hmem
      rcases List.mem_append.1 hmem with hm | hm
      · exact hdisj x (List.mem_cons_of_mem e hx) hm
      · simp only [List.map_cons, List.map_nil, List.mem_singleton] at hm
        exact hnd.1 (hm ▸ List.mem_map.2 ⟨x, hx, rfl⟩)

theorem dedupFirstById_of_nodup (l : List Entity)
    (h : (l.map (fun x => x.id)).Nodup) : dedupFirstById l = l := by
  unfold dedupFirstById
  rw [foldl_skip_of_disjoint l [] h (by simp)]
  simp

theorem pyDictDedup_eq_dedupFirstById (l : List Entity)
    (hcons : ∀ x ∈ l, ∀ y ∈ l, x.id = y.id → x = y) :
    ContextEngine.pyDictDedup l = dedupFirstById l := by
  unfold ContextEngine.pyDictDedup dedupFirstById
  apply foldl_dedupUpd_eq_skip
  intro x y hx hy
  rcases hx with hx | hx
  · simp at hx
  · exact hcons x hx y hy

theorem retrieve_core (direct : List Entity) (terms : List String)
    (s : String → List Entity) (maxE : Nat)
    (hd : (direct.map (fun e => e.id)).Nodup)
    (hcons : ∀ x y : Entity, (x ∈ direct ∨ ∃ t ∈ terms, x ∈ s t) →
        (y ∈ direct ∨ ∃ t ∈ terms, y ∈ s t) → x.id = y.id → x = y) :
    ((if direct.length < maxE / 2 then
        terms.foldl (fun acc term => ContextEngine.pyDictDedup (acc ++ s term)) direct
      else direct).take maxE).length ≤ maxE
      ∧ (((if direct.length < maxE / 2 then
          terms.foldl (fun acc term => ContextEngine.pyDictDedup (acc ++ s term)) direct
        else direct).take maxE).map (fun e => e.id)).Nodup
      ∧ (1 ≤ maxE / 2 → direct = [] → (∃ t ∈ terms, s t ≠ []) →
          (if direct.length < maxE / 2 then
            terms.foldl (fun acc term => ContextEngine.pyDictDedup (acc ++ s term)) direct
          else direct).take maxE ≠ [])
      ∧ (if direct.length < maxE / 2 then
          terms.foldl (fun acc term => ContextEngine.pyDictDedup (acc ++ s term)) direct
        else direct).take maxE
        = (if direct.length < maxE / 2 then
            (dedupFirstById (direct ++ terms.flatMap s)).take maxE
          else direct.take maxE) := by
  refine ⟨List.length_take_le _ _, ?_, ?_, ?_⟩
  · by_cases hc : direct.length < maxE / 2
    · rw [if_pos hc]
      cases terms with
      | nil =>
        rw [List.foldl_nil]
        exact List.Nodup.sublist (List.Sublist.map _ (List.take_sublist _ _)) hd
      | cons t ts =>
        rw [foldl_dedup_step_eq s (t :: ts) direct (by simp)]
        exact List.Nodup.sublist (List.Sublist.map _ (List.take_sublist _ _))
          (pyDictDedup_nodup _)
    · rw [if_neg hc]
      exact List.Nodup.sublist (List.Sublist.map _ (List.take_sublist _ _)) hd
  · intro h2 hdirect hex
    obtain ⟨t, ht, hne⟩ := hex
    have hterms : terms ≠ [] := by
      intro h0
      rw [h0] at ht
      simp at ht
    rw [if_pos (by rw [hdirect]; simpa using h2)]
    rw [hdirect, foldl_dedup_step_eq s terms [] hterms]
    have hflat : terms.flatMap s ≠ [] := by
      intro h0
      exact hne (List.flatMap_eq_nil_iff.1 h0 t ht)
    have hD : ContextEngine.pyDictDedup ([] ++ terms.flatMap s) ≠ [] := by
      apply pyDictDedup_ne_nil
      simpa using hflat
    intro htake
    rcases List.take_eq_nil_iff.1 htake with h0 | h0
    · omega
    · exact hD h0
  · by_cases hc : direct.length < maxE / 2
    · rw [if_pos hc, if_pos hc]
      congr 1
      cases terms with
      | nil =>
        rw [List.foldl_nil, List.flatMap_nil, List.append_nil]
        exact (dedupFirstById_of_nodup direct hd).symm
      | cons t ts =>
        rw [foldl_dedup_step_eq s (t :: ts) direct (by simp)]
        apply pyDictDedup_eq_dedupFirstById
        intro x hx y hy hxy
        refine hcons x y ?_ ?_ hxy
        · rcases List.mem_append.1 hx with h | h
          · exact Or.inl h
          · exact Or.inr (List.mem_flatMap.1 h)
        · rcases List.mem_append.1 hy with h | h
          · exact Or.inl h
          · exact Or.inr (List.mem_flatMap.1 h)
    · rw [if_neg hc, if_neg hc]

/-- C6 (amended): the Entity Retriever returns at most `max_entities`
entities with pairwise-distinct ids (given a store that returns
duplicate-free, value-consistent search results); when the direct search
under-returns it issues one search per key term (top 3) at limit
`max_entities / 2` and merges with first-occurrence-wins deduplication
(it equals the spec-worded `retrieveSpec`); and — provided
`max_entities / 2 ≥ 1` — a query matching nothing directly whose key
terms match entities yields a non-empty result. -/
theorem get_relevant_entities_fallback (st : Stores) (query : String)
    (intent : IntentAnalysis) (max_entities : Nat)
    (hnd : ∀ q l, ((KnowledgeGraph.search_entities st q l).map (fun e => e.id)).Nodup)
    (hcons : ∀ q1 l1 q2 l2, ∀ e1 ∈ KnowledgeGraph.search_entities st q1 l1,
        ∀ e2 ∈ KnowledgeGraph.search_entities st q2 l2, e1.id = e2.id → e1 = e2) :
    (ContextEngine._get_relevant_entities st query intent max_entities).length ≤ max_entities
      ∧ ((ContextEngine._get_relevant_entities st query intent max_entities).map
          (fun e => e.id)).Nodup
      ∧ (1 ≤ max_entities / 2 →
          KnowledgeGraph.search_entities st query max_entities = [] →
          (∃ t ∈ (ContextEngine._extract_key_terms query).take 3,
            KnowledgeGraph.search_entities st t (max_entities / 2) ≠ []) →
          ContextEngine._get_relevant_entities st query intent max_entities ≠ [])
      ∧ ContextEngine._get_relevant_entities st query intent max_entities
          = retrieveSpec st query max_entities := by
  have hprov : ∀ z : Entity,
      (z ∈ KnowledgeGraph.search_entities st query max_entities
        ∨ ∃ t ∈ (ContextEngine._extract_key_terms query).take 3,
            z ∈ KnowledgeGraph.search_entities st t (max_entities / 2)) →
      ∃ q l, z ∈ KnowledgeGraph.search_entities st q l := by
    intro z hz
    rcases hz with hz | ⟨t, -, hz⟩
    · exact ⟨query, max_entities, hz⟩
    · exact ⟨t, max_entities / 2, hz⟩
  have hcons2 : ∀ x y : Entity,
      (x ∈ KnowledgeGraph.search_entities st query max_entities
        ∨ ∃ t ∈ (ContextEngine._extract_key_terms query).take 3,
            x ∈ KnowledgeGraph.search_entities st t (max_entities / 2)) →
      (y ∈ KnowledgeGraph.search_entities st query max_entities
        ∨ ∃ t ∈ (ContextEngine._extract_key_terms query).take 3,
            y ∈ KnowledgeGraph.search_entities st t (max_entities / 2)) →
      x.id = y.id → x = y := by
    intro x y hx hy hxy
    obtain ⟨qx, lx, hx2⟩ := hprov x hx
    obtain ⟨qy, ly, hy2⟩ := hprov y hy
    exact hcons qx lx qy ly x hx2 y hy2 hxy
  unfold ContextEngine._get_relevant_entities retrieveSpec
  dsimp only
  exact retrieve_core (KnowledgeGraph.search_entities st query max_entities)
    ((ContextEngine._extract_key_terms query).take 3)
    (fun term => KnowledgeGraph.search_entities st term (max_entities / 2))
    max_entities (hnd query max_entities) hcons2

/-- C6 counterexample: with `maxEntities = 1` the fallback never fires
(`1 // 2 = 0`, and `0 < 0` is false), so a query ("find acme") that
matches nothing directly returns the empty list even though its key term
"acme" matches an entity. -/
theorem get_relevant_entities_maxEntities_one_empty :
    ContextEngine._get_relevant_entities acmeOnlyStores ("find acme")
        AIService._default_intent_analysis 1 = []
      ∧ "acme" ∈ (ContextEngine._extract_key_terms ("find acme")).take 3
      ∧ KnowledgeGraph.search_entities acmeOnlyStores ("acme") 1 = [acmeCorp]
      ∧ KnowledgeGraph.search_entities acmeOnlyStores ("find acme") 1 = [] := by
  exact ⟨by decide, by decide, by decide, by decide⟩

/-- C6 witness: the amended claim at the concrete acme store with
`maxEntities = 4`: the direct search misses, the key-term fallback finds
the entity, and the result is the non-empty singleton bounded by 4. -/
theorem get_relevant_entities_fallback_witness :
    (ContextEngine._get_relevant_entities acmeOnlyStores ("find acme")
        AIService._default_intent_analysis 4).length ≤ 4
      ∧ ((ContextEngine._get_relevant_entities acmeOnlyStores ("find acme")
          AIService._default_intent_analysis 4).map (fun e => e.id)).Nodup
      ∧ (1 ≤ 4 / 2 →
          KnowledgeGraph.search_entities acmeOnlyStores ("find acme") 4 = [] →
          (∃ t ∈ (ContextEngine._extract_key_terms ("find acme")).take 3,
            KnowledgeGraph.search_entities acmeOnlyStores t (4 / 2) ≠ []) →
          ContextEngine._get_relevant_entities acmeOnlyStores ("find acme")
            AIService._default_intent_analysis 4 ≠ [])
      ∧ ContextEngine._get_relevant_entities acmeOnlyStores ("find acme")
          AIService._default_intent_analysis 4
        = retrieveSpec acmeOnlyStores ("find acme") 4 :=
  get_relevant_entities_fallback acmeOnlyStores ("find acme")
    AIService._default_intent_analysis 4
    (by
      intro q l
      unfold KnowledgeGraph.search_entities acmeOnlyStores
      dsimp only
      by_cases hq : q = "acme"
      · rw [if_pos hq]
        exact List.Nodup.sublist (List.Sublist.map _ (List.take_sublist _ _)) (by simp)
      · rw [if_neg hq]
        simp)
    (by
      have hmem : ∀ (q : String) (l : Nat) (e : Entity),
          e ∈ KnowledgeGraph.search_entities acmeOnlyStores q l → e = acmeCorp := by
        intro q l e he
        unfold KnowledgeGraph.search_entities acmeOnlyStores at he
        dsimp only at he
        by_cases hq : q = "acme"
        · rw [if_pos hq] at he
          simpa using List.mem_of_mem_take he
        · rw [if_neg hq] at he
          simp at he
      intro q1 l1 q2 l2 e1 he1 e2 he2 _
      rw [hmem q1 l1 e1 he1, hmem q2 l2 e2 he2])

/-- C1: when every external collaborator fails (graph search,
relationship query, vector query, generation), `build_context` still
returns — the failure is trapped at every layer — and the returned
context has empty entity, relationship and chunk lists, an empty
document set, and a non-empty summary string (the trapped-error fallback
text of `generate_text`). -/
theorem build_context_all_collaborators_fail (st : Stores) (query task_type : String)
    (max_entities max_chunks : Nat)
    (hg : ∀ q l, ∃ e, st.searchEntities q l = Except.error e)
    (hr : ∀ i, ∃ e, st.entityRelationships i = Except.error e)
    (hv : ∀ q n f, ∃ e, st.collectionQuery q n f = Except.error e)
    (hgen : ∀ p, ∃ e, st.genContent p = Except.error e) :
    (ContextEngine.build_context st query task_type max_entities max_chunks).entities = []
      ∧ (ContextEngine.build_context st query task_type max_entities
          max_chunks).relationships = []
      ∧ (ContextEngine.build_context st query task_type max_entities
          max_chunks).semantic_chunks = []
      ∧ (ContextEngine.build_context st query task_type max_entities
          max_chunks).documents = ∅
      ∧ ∃ s, (ContextEngine.build_context st query task_type max_entities
          max_chunks).context_summary = some s ∧ s ≠ "" := by
  have hwrapG : ∀ q l, KnowledgeGraph.search_entities st q l = [] := by
    intro q l
    obtain ⟨e, he⟩ := hg q l
    unfold KnowledgeGraph.search_entities
    rw [he]
  have hents : ∀ intent, ContextEngine._get_relevant_entities st query intent
      max_entities = [] := by
    intro intent
    unfold ContextEngine._get_relevant_entities
    dsimp only
    rw [hwrapG query max_entities]
    have hfold : ∀ (terms : List String),
        terms.foldl (fun acc term => ContextEngine.pyDictDedup
          (acc ++ KnowledgeGraph.search_entities st term (max_entities / 2))) [] = [] := by
      intro terms
      induction terms with
      | nil => rfl
      | cons t ts ih =>
        rw [List.foldl_cons]
        have hst : ContextEngine.pyDictDedup
            ([] ++ KnowledgeGraph.search_entities st t (max_entities / 2)) = [] := by
          rw [hwrapG]
          rfl
        rw [hst]
        exact ih
    by_cases hc : ([] : List Entity).length < max_entities / 2
    · rw [if_pos hc, hfold]
      exact List.take_nil
    · rw [if_neg hc]
      exact List.take_nil
  have hrels : ∀ intent, ContextEngine._get_relevant_relationships st [] intent = [] :=
    fun _ => rfl
  have hchunks : ∀ intent, ContextEngine._get_relevant_chunks st query intent
      max_chunks = [] := by
    intro intent
    unfold ContextEngine._get_relevant_chunks VectorStore.search_similar
    dsimp only
    obtain ⟨e, he⟩ := hv query max_chunks none
    rw [he]
    rfl
  have hne : ∀ p, AIService.generate_text st p ≠ "" := by
    intro p h0
    obtain ⟨e, he⟩ := hgen (AIService._build_prompt p)
    unfold AIService.generate_text at h0
    rw [he] at h0
    have hlen := congrArg String.length h0
    have h27 : ("Error generating response: ").length = 27 := rfl
    rw [String.length_append, h27] at hlen
    simp at hlen
  unfold ContextEngine.build_context
  dsimp only
  rw [hents, hrels, hchunks]
  refine ⟨rfl, rfl, rfl, ?_, ?_⟩
  · unfold ContextEngine._extract_document_ids
    simp
  · exact ⟨_, rfl, hne _⟩

/-- C1 witness: the conclusion at the concrete all-failing store. -/
theorem build_context_all_collaborators_fail_witness :
    (ContextEngine.build_context failingStores ("q") ("general") 10 5).entities = []
      ∧ (ContextEngine.build_context failingStores ("q") ("general") 10 5).relationships = []
      ∧ (ContextEngine.build_context failingStores ("q") ("general") 10 5).semantic_chunks
        = []
      ∧ (ContextEngine.build_context failingStores ("q") ("general") 10 5).documents = ∅
      ∧ ∃ s, (ContextEngine.build_context failingStores ("q") ("general") 10
          5).context_summary = some s ∧ s ≠ "" :=
  build_context_all_collaborators_fail failingStores ("q") ("general") 10 5
    (fun _ _ => ⟨"connection refused", rfl⟩)
    (fun _ => ⟨"connection refused", rfl⟩)
    (fun _ _ _ => ⟨"connection refused", rfl⟩)
    (fun _ => ⟨"quota exceeded", rfl⟩)

end CursorBuild
